import Mathlib

/-!
Verification of the mind_craft server-management system against its
natural-language specification.

The definitions below are a shallow embedding of the Rust sources:
* `yapper/src/lib.rs` — wire framing (`send_thing` / `recv_thing`),
  login packets, notifications;
* `sv_manage/src/server_loop.rs` — the per-server supervisor: the idle
  command loop, mod install/update/uninstall/list, the notification
  outbox, the packaged-zip cache;
* `sv_manage/src/client_loop.rs` — the login decision.

Bytes are modelled as `Nat` (values < 256 where it matters), byte
strings as `List Nat`, filesystem paths as `List String` of components,
and the filesystem as an association list from paths to file contents.
-/

namespace MindCraft

/-! ## Wire framing (yapper/src/lib.rs, send_thing / recv_thing)

The `ende` encoder configured in `client_loop.rs` writes sizes as
LEB128; a serialized payload is its LEB128 byte-length followed by its
bytes ("size-prefixed serialization").  `send_thing` zero-pads that
serialization to the next 16-byte boundary, encrypts it with
AES-128-CBC through OpenSSL (which appends PKCS#7 padding), and writes
`IV(16) || big-endian u32 ciphertext length || ciphertext`.
AES-128 itself is an external primitive: the CBC mode below is built
over an abstract block transformation `E` with inverse `D`. -/

/-- LEB128 encoding of a natural number: seven value bits per byte,
high bit set on every byte but the last. -/
def leb128Encode (n : Nat) : List Nat :=
  if n < 128 then [n] else (n % 128 + 128) :: leb128Encode (n / 128)
termination_by n
decreasing_by exact Nat.div_lt_self (by omega) (by omega)

/-- LEB128 decoding from a byte stream; returns the value and the
remaining bytes, or `none` if the stream ends inside the number. -/
def leb128Decode : List Nat → Option (Nat × List Nat)
  | [] => none
  | b :: rest =>
    if b < 128 then some (b, rest)
    else
      match leb128Decode rest with
      | some (v, r) => some ((b - 128) + 128 * v, r)
      | none => none

/-- The size-prefixed serialization of a payload: the LEB128 length of
the payload body followed by the body bytes (the `ende` encoding used
on every packet). -/
def serializePayload (p : List Nat) : List Nat :=
  leb128Encode p.length ++ p

/-- Deserialization: read the LEB128 size prefix, then exactly that
many bytes; trailing bytes (the zero padding) are ignored.  Fails if
fewer bytes remain than the prefix announces. -/
def deserializePayload (v : List Nat) : Option (List Nat) :=
  match leb128Decode v with
  | some (n, rest) => if n ≤ rest.length then some (rest.take n) else none
  | none => none

/-- `send_thing`'s explicit padding step: append `16 - len % 16`
zero bytes (a full block of 16 zeros when already aligned). -/
def zeroPad16 (v : List Nat) : List Nat :=
  v ++ List.replicate (16 - v.length % 16) 0

/-- PKCS#7 padding as applied by OpenSSL's `symm::encrypt`: append
`k = 16 - len % 16` bytes of value `k`. -/
def pkcs7Pad (v : List Nat) : List Nat :=
  v ++ List.replicate (16 - v.length % 16) (16 - v.length % 16)

/-- PKCS#7 unpadding as checked by OpenSSL's `symm::decrypt`: the last
byte `k` must be in `1..=16`, the last `k` bytes must all equal `k`;
they are stripped. -/
def pkcs7Unpad (v : List Nat) : Option (List Nat) :=
  match v.getLast? with
  | none => none
  | some k =>
    if 1 ≤ k ∧ k ≤ 16 ∧ k ≤ v.length ∧ (v.drop (v.length - k)).all (· = k)
    then some (v.take (v.length - k))
    else none

/-- Byte-wise exclusive or of two equal-length blocks. -/
def xorBytes (a b : List Nat) : List Nat :=
  List.zipWith (fun x y => x ^^^ y) a b

/-- Split a byte string into consecutive 16-byte blocks. -/
def chunk16 (l : List Nat) : List (List Nat) :=
  if h : l = [] then [] else l.take 16 :: chunk16 (l.drop 16)
termination_by l.length
decreasing_by
  simp only [List.length_drop]
  have := List.length_pos.mpr h
  omega

/-- CBC encryption over blocks: each plaintext block is xored with the
previous ciphertext block (initially the IV) and sent through the
block cipher `E`. -/
def cbcEncBlocks (E : List Nat → List Nat) (prev : List Nat) :
    List (List Nat) → List (List Nat)
  | [] => []
  | p :: ps =>
    let c := E (xorBytes prev p)
    c :: cbcEncBlocks E c ps

/-- CBC decryption over blocks with the inverse block cipher `D`. -/
def cbcDecBlocks (D : List Nat → List Nat) (prev : List Nat) :
    List (List Nat) → List (List Nat)
  | [] => []
  | c :: cs => xorBytes prev (D c) :: cbcDecBlocks D c cs

/-- OpenSSL `symm::encrypt` with AES-128-CBC: PKCS#7-pad, then CBC. -/
def opensslEncrypt (E : List Nat → List Nat) (iv data : List Nat) : List Nat :=
  (cbcEncBlocks E iv (chunk16 (pkcs7Pad data))).flatten

/-- OpenSSL `symm::decrypt` with AES-128-CBC: CBC-decrypt, then strip
and verify the PKCS#7 padding. -/
def opensslDecrypt (D : List Nat → List Nat) (iv ct : List Nat) : Option (List Nat) :=
  pkcs7Unpad (cbcDecBlocks D iv (chunk16 ct)).flatten

/-- Big-endian 4-byte encoding of a (truncated) `u32`. -/
def be32Encode (n : Nat) : List Nat :=
  [n / 2 ^ 24 % 256, n / 2 ^ 16 % 256, n / 2 ^ 8 % 256, n % 256]

/-- Big-endian interpretation of a byte list (`u32::from_be_bytes`). -/
def be32Decode (l : List Nat) : Nat :=
  l.foldl (fun a b => a * 256 + b) 0

/-- `send_thing`: serialize the payload with its size prefix, zero-pad
to a 16-byte boundary, encrypt under AES-128-CBC with a fresh IV, and
emit `IV || be32 length-of-ciphertext || ciphertext`. -/
def send_thing (E : List Nat → List Nat) (iv payload : List Nat) : List Nat :=
  let vec := zeroPad16 (serializePayload payload)
  let ct := opensslEncrypt E iv vec
  iv ++ be32Encode ct.length ++ ct

/-- `recv_thing`: read the 16-byte IV, the 4-byte big-endian length,
then exactly that many ciphertext bytes; decrypt and decode the
payload behind its size prefix. -/
def recv_thing (D : List Nat → List Nat) (stream : List Nat) : Option (List Nat) :=
  if 20 ≤ stream.length then
    let iv := stream.take 16
    let r1 := stream.drop 16
    let len := be32Decode (r1.take 4)
    let r2 := r1.drop 4
    if len ≤ r2.length then
      match opensslDecrypt D iv (r2.take len) with
      | some plain => deserializePayload plain
      | none => none
    else none
  else none

/-! ### Round-trip lemmas for the framing layer -/

theorem leb128_decode_encode (n : Nat) (rest : List Nat) :
    leb128Decode (leb128Encode n ++ rest) = some (n, rest) := by
  induction n using Nat.strong_induction_on with
  | _ n ih =>
    rw [leb128Encode]
    by_cases h : n < 128
    · simp [h, leb128Decode]
    · have hd : n / 128 < n := Nat.div_lt_self (by omega) (by omega)
      simp only [if_neg h, List.cons_append, leb128Decode]
      rw [if_neg (by omega), ih _ hd]
      have hval : n % 128 + 128 - 128 + 128 * (n / 128) = n := by omega
      show some (n % 128 + 128 - 128 + 128 * (n / 128), rest) = some (n, rest)
      rw [hval]

theorem leb128Encode_length (n : Nat) : (leb128Encode n).length ≤ n + 1 := by
  induction n using Nat.strong_induction_on with
  | _ n ih =>
    rw [leb128Encode]
    by_cases h : n < 128
    · simp [h]
    · have hd : n / 128 < n := Nat.div_lt_self (by omega) (by omega)
      simp only [if_neg h, List.length_cons]
      have := ih _ hd
      omega

theorem deserialize_serialize (p pad : List Nat) :
    deserializePayload (serializePayload p ++ pad) = some p := by
  unfold deserializePayload serializePayload
  rw [List.append_assoc, leb128_decode_encode]
  have hle : p.length ≤ (p ++ pad).length := by simp
  simp only [hle, if_true]
  rw [List.take_left]

theorem xorBytes_length (a b : List Nat) :
    (xorBytes a b).length = min a.length b.length := by
  simp [xorBytes]

theorem xorBytes_cancel (a b : List Nat) (h : a.length = b.length) :
    xorBytes a (xorBytes a b) = b := by
  induction a generalizing b with
  | nil =>
    cases b with
    | nil => rfl
    | cons y ys => simp at h
  | cons x xs ih =>
    cases b with
    | nil => simp at h
    | cons y ys =>
      simp only [List.length_cons, Nat.add_right_cancel_iff] at h
      simp only [xorBytes, List.zipWith_cons_cons]
      rw [Nat.xor_cancel_left]
      exact congrArg _ (ih ys h)

theorem chunk16_flatten (l : List Nat) : (chunk16 l).flatten = l := by
  induction l using chunk16.induct with
  | case1 => rw [chunk16]; simp
  | case2 l h ih =>
    rw [chunk16, dif_neg h]
    simp only [List.flatten_cons, ih, List.take_append_drop]

theorem chunk16_blocks_len (l : List Nat) :
    l.length % 16 = 0 → ∀ b ∈ chunk16 l, b.length = 16 := by
  induction l using chunk16.induct with
  | case1 => intro h b hb; rw [chunk16] at hb; simp at hb
  | case2 l hl ih =>
    intro h b hb
    rw [chunk16, dif_neg hl] at hb
    have hpos : 0 < l.length := List.length_pos.mpr hl
    have h16 : 16 ≤ l.length := by omega
    rcases List.mem_cons.mp hb with hb | hb
    · subst hb; simp only [List.length_take]; omega
    · exact ih (by simp only [List.length_drop]; omega) b hb

theorem chunk16_flatten_blocks (bs : List (List Nat))
    (h : ∀ b ∈ bs, b.length = 16) : chunk16 bs.flatten = bs := by
  induction bs with
  | nil => rw [chunk16]; simp
  | cons b bs ih =>
    have hb : b.length = 16 := h b (by simp)
    have hne : b ++ bs.flatten ≠ [] := by
      intro hc
      have := congrArg List.length hc
      simp [hb] at this
    rw [List.flatten_cons, chunk16, dif_neg hne]
    have ht : (b ++ bs.flatten).take 16 = b := by
      rw [← hb]; exact List.take_left _ _
    have hd : (b ++ bs.flatten).drop 16 = bs.flatten := by
      rw [← hb]; exact List.drop_left _ _
    rw [ht, hd, ih (fun x hx => h x (by simp [hx]))]

theorem cbcEncBlocks_length (E : List Nat → List Nat) (prev : List Nat)
    (bs : List (List Nat)) : (cbcEncBlocks E prev bs).length = bs.length := by
  induction bs generalizing prev with
  | nil => rfl
  | cons p ps ih => simp only [cbcEncBlocks, List.length_cons, ih]

theorem cbcEncBlocks_blocks_len (E D : List Nat → List Nat)
    (hE : ∀ b : List Nat, b.length = 16 → (E b).length = 16 ∧ D (E b) = b)
    (prev : List Nat) (hprev : prev.length = 16) (bs : List (List Nat))
    (hbs : ∀ b ∈ bs, b.length = 16) :
    ∀ c ∈ cbcEncBlocks E prev bs, c.length = 16 := by
  induction bs generalizing prev with
  | nil => intro c hc; simp [cbcEncBlocks] at hc
  | cons p ps ih =>
    have hp : p.length = 16 := hbs p (by simp)
    have hxlen : (xorBytes prev p).length = 16 := by
      rw [xorBytes_length, hprev, hp]; simp
    obtain ⟨hclen, _⟩ := hE _ hxlen
    intro c hc
    simp only [cbcEncBlocks] at hc
    rcases List.mem_cons.mp hc with hc | hc
    · subst hc; exact hclen
    · exact ih _ hclen (fun x hx => hbs x (by simp [hx])) c hc

theorem cbcDec_cbcEnc (E D : List Nat → List Nat)
    (hE : ∀ b : List Nat, b.length = 16 → (E b).length = 16 ∧ D (E b) = b)
    (prev : List Nat) (hprev : prev.length = 16) (bs : List (List Nat))
    (hbs : ∀ b ∈ bs, b.length = 16) :
    cbcDecBlocks D prev (cbcEncBlocks E prev bs) = bs := by
  induction bs generalizing prev with
  | nil => rfl
  | cons p ps ih =>
    have hp : p.length = 16 := hbs p (by simp)
    have hxlen : (xorBytes prev p).length = 16 := by
      rw [xorBytes_length, hprev, hp]; simp
    obtain ⟨hclen, hinv⟩ := hE _ hxlen
    simp only [cbcEncBlocks, cbcDecBlocks, List.cons.injEq]
    constructor
    · rw [hinv, xorBytes_cancel _ _ (hprev.trans hp.symm)]
    · exact ih _ hclen (fun x hx => hbs x (by simp [hx]))

theorem flatten_blocks_length (bs : List (List Nat))
    (h : ∀ b ∈ bs, b.length = 16) : bs.flatten.length = 16 * bs.length := by
  induction bs with
  | nil => simp
  | cons b bs ih =>
    simp only [List.flatten_cons, List.length_append, List.length_cons,
      h b (by simp), ih (fun x hx => h x (by simp [hx]))]
    ring

theorem pkcs7Pad_length (v : List Nat) (h : v.length % 16 = 0) :
    (pkcs7Pad v).length = v.length + 16 := by
  simp [pkcs7Pad, h]

theorem pkcs7Unpad_pad (v : List Nat) (h : v.length % 16 = 0) :
    pkcs7Unpad (pkcs7Pad v) = some v := by
  have h16 : (16 : Nat) - v.length % 16 = 16 := by omega
  have hpad : pkcs7Pad v = v ++ List.replicate 15 16 ++ [16] := by
    unfold pkcs7Pad
    rw [h16,
      show List.replicate 16 16 = List.replicate 15 16 ++ [16] from
        List.replicate_succ' 15 16,
      List.append_assoc]
  have hwlen : (v ++ List.replicate 15 16 ++ [16]).length = v.length + 16 := by
    simp
  have hsub : (v ++ List.replicate 15 16 ++ [16]).length - 16 = v.length := by
    omega
  have hdrop : (v ++ List.replicate 15 16 ++ [16]).drop
      ((v ++ List.replicate 15 16 ++ [16]).length - 16)
      = List.replicate 15 16 ++ [16] := by
    rw [hsub, List.append_assoc, List.drop_left]
  have htake : (v ++ List.replicate 15 16 ++ [16]).take
      ((v ++ List.replicate 15 16 ++ [16]).length - 16) = v := by
    rw [hsub, List.append_assoc, List.take_left]
  rw [hpad]
  simp only [pkcs7Unpad, List.getLast?_concat]
  rw [if_pos ⟨by omega, by omega, by omega, by rw [hdrop]; decide⟩, htake]

theorem zeroPad16_mod (v : List Nat) : (zeroPad16 v).length % 16 = 0 := by
  simp only [zeroPad16, List.length_append, List.length_replicate]
  omega

theorem opensslEncrypt_length (E D : List Nat → List Nat)
    (hE : ∀ b : List Nat, b.length = 16 → (E b).length = 16 ∧ D (E b) = b)
    (iv : List Nat) (hiv : iv.length = 16) (data : List Nat)
    (h : data.length % 16 = 0) :
    (opensslEncrypt E iv data).length = data.length + 16 := by
  unfold opensslEncrypt
  have hpadlen : (pkcs7Pad data).length = data.length + 16 := pkcs7Pad_length data h
  have hpadmod : (pkcs7Pad data).length % 16 = 0 := by omega
  have hblocks := chunk16_blocks_len (pkcs7Pad data) hpadmod
  have henc := cbcEncBlocks_blocks_len E D hE iv hiv _ hblocks
  rw [flatten_blocks_length _ henc, cbcEncBlocks_length]
  have : (chunk16 (pkcs7Pad data)).flatten.length = (pkcs7Pad data).length := by
    rw [chunk16_flatten]
  rw [flatten_blocks_length _ hblocks] at this
  omega

theorem opensslDecrypt_encrypt (E D : List Nat → List Nat)
    (hE : ∀ b : List Nat, b.length = 16 → (E b).length = 16 ∧ D (E b) = b)
    (iv : List Nat) (hiv : iv.length = 16) (data : List Nat)
    (h : data.length % 16 = 0) :
    opensslDecrypt D iv (opensslEncrypt E iv data) = some data := by
  unfold opensslEncrypt opensslDecrypt
  have hpadmod : (pkcs7Pad data).length % 16 = 0 := by
    have := pkcs7Pad_length data h; omega
  have hblocks := chunk16_blocks_len (pkcs7Pad data) hpadmod
  have henc := cbcEncBlocks_blocks_len E D hE iv hiv _ hblocks
  rw [chunk16_flatten_blocks _ henc, cbcDec_cbcEnc E D hE iv hiv _ hblocks,
    chunk16_flatten, pkcs7Unpad_pad data h]

theorem be32_roundtrip (n : Nat) (h : n < 2 ^ 32) :
    be32Decode (be32Encode n) = n := by
  simp only [be32Decode, be32Encode, List.foldl]
  omega

theorem be32Encode_length (n : Nat) : (be32Encode n).length = 4 := by
  simp [be32Encode]

/-- C1 — Frame round-trip.  `E` is AES-128-CBC's block transformation
under the session key and `D` its inverse (the hypothesis `hE` is the
block-cipher contract); the IV is 16 bytes and the payload small
enough for its ciphertext length to fit a `u32`.  Sending a payload as
a frame (16-byte IV, 4-byte big-endian ciphertext length, ciphertext
of the size-prefixed serialization zero-padded to a 16-byte boundary)
and receiving that frame under the same key recovers the payload, the
inner size prefix determining the payload boundary underneath the
padding. -/
theorem frame_roundtrip (E D : List Nat → List Nat)
    (hE : ∀ b : List Nat, b.length = 16 → (E b).length = 16 ∧ D (E b) = b)
    (iv : List Nat) (hiv : iv.length = 16)
    (payload : List Nat) (hp : payload.length < 2 ^ 30) :
    recv_thing D (send_thing E iv payload) = some payload := by
  have hvecmod : (zeroPad16 (serializePayload payload)).length % 16 = 0 :=
    zeroPad16_mod _
  have hctlen : (opensslEncrypt E iv (zeroPad16 (serializePayload payload))).length
      = (zeroPad16 (serializePayload payload)).length + 16 :=
    opensslEncrypt_length E D hE iv hiv _ hvecmod
  have hveclen : (zeroPad16 (serializePayload payload)).length
      ≤ (serializePayload payload).length + 16 := by
    simp only [zeroPad16, List.length_append, List.length_replicate]
    omega
  have hserlen : (serializePayload payload).length ≤ payload.length * 2 + 1 := by
    simp only [serializePayload, List.length_append]
    have := leb128Encode_length payload.length
    omega
  have hctlt : (opensslEncrypt E iv (zeroPad16 (serializePayload payload))).length
      < 2 ^ 32 := by omega
  set ct := opensslEncrypt E iv (zeroPad16 (serializePayload payload)) with hct
  show recv_thing D (iv ++ be32Encode ct.length ++ ct) = some payload
  have hstream : (iv ++ be32Encode ct.length ++ ct).length = 20 + ct.length := by
    simp [hiv, be32Encode]; omega
  have htake16 : (iv ++ (be32Encode ct.length ++ ct)).take 16 = iv := by
    rw [← hiv]; exact List.take_left _ _
  have hdrop16 : (iv ++ (be32Encode ct.length ++ ct)).drop 16
      = be32Encode ct.length ++ ct := by
    rw [← hiv]; exact List.drop_left _ _
  have htake4 : (be32Encode ct.length ++ ct).take 4 = be32Encode ct.length := by
    rw [← be32Encode_length ct.length]; exact List.take_left _ _
  have hdrop4 : (be32Encode ct.length ++ ct).drop 4 = ct := by
    rw [← be32Encode_length ct.length]; exact List.drop_left _ _
  rw [recv_thing, List.append_assoc]
  rw [if_pos (by rw [← List.append_assoc, hstream]; omega)]
  simp only [htake16, hdrop16, htake4, hdrop4, be32_roundtrip ct.length hctlt,
    le_refl, if_true, List.take_length]
  rw [hct, opensslDecrypt_encrypt E D hE iv hiv _ hvecmod]
  unfold zeroPad16
  exact deserialize_serialize payload _

/-- C1 witness: the round-trip evaluated with the identity block
transformation, a concrete IV of 16 zero bytes and the payload
`[1, 2, 3]`. -/
theorem frame_roundtrip_witness :
    recv_thing id (send_thing id (List.replicate 16 0) [1, 2, 3]) = some [1, 2, 3] :=
  frame_roundtrip id id (fun b hb => ⟨hb, rfl⟩) (List.replicate 16 0) (by simp)
    [1, 2, 3] (by simp)

/-! ## Status, notifications and the outbox
(yapper/src/lib.rs `Status` / `Notification`,
sv_manage/src/server_loop.rs `push_notif` / `replace_notif_if`).

The outbox is per account (`NOTIFICATIONS` maps an account name to its
queue); all functions below act on a single account's queue, which is
how every call site in `server_loop.rs` uses it. -/

inductive Status
  | idle
  | starting
  | running
  | stopping
  | backingUp
  | restoring
  | modding
  | packaging
deriving DecidableEq

inductive ZipProgress
  | zipping (copied total : Nat)
  | uploading (copied total : Nat)
deriving DecidableEq

inductive Notification
  | backupFailed (server error : String)
  | restoreFailed (server error : String)
  | statusChanged (server : String) (old new : Status)
  | backupProgress (server : String) (copied total : Nat)
  | restoreProgress (server : String) (copied total : Nat)
  | zipProgress (server : String) (progress : ZipProgress)
  | zipFailed (server error : String)
  | zipFile (server url : String)
deriving DecidableEq

/-- `Notification::is_backup_progress`. -/
def Notification.is_backup_progress : Notification → Bool
  | .backupProgress _ _ _ => true
  | _ => false

/-- `Notification::is_restore_progress`. -/
def Notification.is_restore_progress : Notification → Bool
  | .restoreProgress _ _ _ => true
  | _ => false

/-- `Notification::is_package_progress`. -/
def Notification.is_package_progress : Notification → Bool
  | .zipProgress _ _ => true
  | _ => false

/-- `push_notif`: append to the account's queue. -/
def push_notif (outbox : List Notification) (notif : Notification) :
    List Notification :=
  outbox ++ [notif]

/-- `replace_notif_if`: overwrite the first queued notification matching
`f` in place, or append if none matches. -/
def replace_notif_if (notif : Notification) (f : Notification → Bool) :
    List Notification → List Notification
  | [] => [notif]
  | x :: xs => if f x then notif :: xs else x :: replace_notif_if notif f xs

/-- The backup-progress push exactly as `server_main` performs it:
`replace_notif_if(account, BackupProgress(server, copied, total),
|other| other.is_backup_progress())`. -/
def pushBackupProgress (outbox : List Notification) (server : String)
    (copied total : Nat) : List Notification :=
  replace_notif_if (.backupProgress server copied total)
    Notification.is_backup_progress outbox

/-- The restore-progress push exactly as `server_main` performs it. -/
def pushRestoreProgress (outbox : List Notification) (server : String)
    (copied total : Nat) : List Notification :=
  replace_notif_if (.restoreProgress server copied total)
    Notification.is_restore_progress outbox

/-- The zip-progress push exactly as `server_main` performs it. -/
def pushZipProgress (outbox : List Notification) (server : String)
    (progress : ZipProgress) : List Notification :=
  replace_notif_if (.zipProgress server progress)
    Notification.is_package_progress outbox

/-- Specification-side coalescing: replace the first queued notification
satisfying `sameKind` (regardless of which server it belongs to), or
append when none is queued. -/
def coalesceFirst (outbox : List Notification) (notif : Notification)
    (sameKind : Notification → Bool) : List Notification :=
  if outbox.any sameKind then
    outbox.takeWhile (fun x => !sameKind x)
      ++ notif :: (outbox.dropWhile (fun x => !sameKind x)).tail
  else outbox ++ [notif]

theorem replace_notif_if_eq_coalesceFirst (notif : Notification)
    (f : Notification → Bool) (outbox : List Notification) :
    replace_notif_if notif f outbox = coalesceFirst outbox notif f := by
  induction outbox with
  | nil => rfl
  | cons x xs ih =>
    by_cases hx : f x
    · simp [replace_notif_if, coalesceFirst, hx]
    · rw [replace_notif_if, if_neg hx, ih]
      unfold coalesceFirst
      simp only [List.any_cons, hx, Bool.false_or, List.takeWhile_cons,
        Bool.not_false, if_true, List.dropWhile_cons, Bool.not_eq_true']
      by_cases ha : xs.any f
      · simp only [ha, if_true, hx, Bool.false_eq_true, if_false,
          List.cons_append]
      · simp only [ha, Bool.false_eq_true, if_false, List.cons_append]

/-- C4 counterexample: a queued `BackupProgress` for server `"A"` is
replaced by a `BackupProgress` push for a different server `"B"` —
the push does not append, and the `"A"` notification is lost. -/
theorem notif_coalesce_counterexample :
    pushBackupProgress [Notification.backupProgress "A" 1 10] "B" 2 20
      = [Notification.backupProgress "B" 2 20] ∧
    Notification.backupProgress "A" 1 10 ∉
      pushBackupProgress [Notification.backupProgress "A" 1 10] "B" 2 20 := by
  constructor
  · rfl
  · intro h
    simp [pushBackupProgress, replace_notif_if,
      Notification.is_backup_progress] at h

/-- C4 (amended) — Outbox coalescing by kind only: pushing a progress
notification (`BackupProgress`, `RestoreProgress`, `ZipProgress`)
replaces the first queued notification of the same kind regardless of
which server it is for, and appends when none of that kind is queued;
terminal notifications are pushed with `push_notif` and always append. -/
theorem notif_coalesce_by_kind (outbox : List Notification) (server : String)
    (copied total : Nat) (zp : ZipProgress) (terminal : Notification) :
    pushBackupProgress outbox server copied total
      = coalesceFirst outbox (.backupProgress server copied total)
          Notification.is_backup_progress ∧
    pushRestoreProgress outbox server copied total
      = coalesceFirst outbox (.restoreProgress server copied total)
          Notification.is_restore_progress ∧
    pushZipProgress outbox server zp
      = coalesceFirst outbox (.zipProgress server zp)
          Notification.is_package_progress ∧
    push_notif outbox terminal = outbox ++ [terminal] :=
  ⟨replace_notif_if_eq_coalesceFirst _ _ _,
   replace_notif_if_eq_coalesceFirst _ _ _,
   replace_notif_if_eq_coalesceFirst _ _ _, rfl⟩

/-! ## Login exchange (sv_manage/src/client_loop.rs, lines 44-58)

`client_loop` receives a `LoginPacket`, looks the account up by
username in the configuration store and compares the stored 32-byte
password digest with the submitted one; on success the subsequent
command packet is processed, otherwise `recv_packet` returns the error
response and the connection aborts before any command is read. -/

inductive LoginResponse
  | ok
  | wrongCredentials
deriving DecidableEq

structure Account where
  password : List Nat
deriving DecidableEq

structure LoginPacket where
  user : String
  password : List Nat
deriving DecidableEq

/-- `conf.accounts.get(&login.user)`. -/
def lookupAccount (accounts : List (String × Account)) (user : String) :
    Option Account :=
  (accounts.find? (fun e => e.1 == user)).map (·.2)

/-- The login decision of `client_loop`: account found and digest
exactly equal ⇒ `Ok`, otherwise `WrongCredentials`. -/
def login_check (accounts : List (String × Account)) (login : LoginPacket) :
    LoginResponse :=
  match lookupAccount accounts login.user with
  | some account =>
    if account.password = login.password then .ok else .wrongCredentials
  | none => .wrongCredentials

/-- One connection after the handshake: the login packet is answered
first; only if it was answered `Ok` is the command packet read and
dispatched (`recv_packet` propagates the login failure, aborting the
connection).  `dispatch` abstracts the command processing. -/
def client_session {α β : Type} (accounts : List (String × Account))
    (login : LoginPacket) (cmd : α) (dispatch : α → β) :
    LoginResponse × Option β :=
  match login_check accounts login with
  | .ok => (.ok, some (dispatch cmd))
  | .wrongCredentials => (.wrongCredentials, none)

/-- C5 — Login decision: the host answers `Ok` exactly when an account
with the submitted username exists and its stored password digest
equals the submitted digest exactly; in every other case it answers
`WrongCredentials` and the connection processes no command. -/
theorem login_decision {α β : Type} (accounts : List (String × Account))
    (login : LoginPacket) (cmd : α) (dispatch : α → β) :
    ((client_session accounts login cmd dispatch).1 = .ok ↔
      ∃ a, lookupAccount accounts login.user = some a ∧
        a.password = login.password) ∧
    ((client_session accounts login cmd dispatch).1 ≠ .ok →
      (client_session accounts login cmd dispatch).1 = .wrongCredentials ∧
      (client_session accounts login cmd dispatch).2 = none) := by
  unfold client_session login_check
  cases hl : lookupAccount accounts login.user with
  | none =>
    dsimp only
    exact ⟨⟨fun h => LoginResponse.noConfusion h,
      fun ⟨a, ha, _⟩ => Option.noConfusion ha⟩, fun _ => ⟨rfl, rfl⟩⟩
  | some account =>
    dsimp only
    by_cases hpw : account.password = login.password
    · rw [if_pos hpw]
      exact ⟨⟨fun _ => ⟨account, rfl, hpw⟩, fun _ => rfl⟩,
        fun h => absurd rfl h⟩
    · rw [if_neg hpw]
      refine ⟨⟨fun h => LoginResponse.noConfusion h, fun ⟨a, ha, hb⟩ => ?_⟩,
        fun _ => ⟨rfl, rfl⟩⟩
      rw [Option.some.injEq] at ha
      exact absurd (ha ▸ hb) hpw

/-- C5 witness: a wrong digest for an existing account yields no
processed command. -/
theorem login_decision_witness :
    (client_session [("alice", Account.mk [1, 2])] ⟨"alice", [9, 9]⟩ 0
      (fun n : Nat => n)).2 = none :=
  ((login_decision [("alice", Account.mk [1, 2])] ⟨"alice", [9, 9]⟩ 0
    (fun n : Nat => n)).2 (by decide)).2

/-! ## Filesystem model

Paths are lists of components; the filesystem is an association list
from file paths to file contents.  Directories are implicit: a
directory "exists" when some file lies strictly below it (`is_dir`),
which is what every `is_dir`/`exists` check in `server_loop.rs`
observes after the relevant `create_dir` calls.  A jar archive's
parsed metadata (`parse_mod`, an external collaborator of which the
supervisor only uses `mod_id` and the path, spec §6) is carried on the
file content as `meta`; `meta = none` models an archive `parse_mod`
rejects. -/

structure ModMeta where
  mod_id : String
deriving DecidableEq

structure JarFile where
  bytes : List Nat
  meta : Option ModMeta
deriving DecidableEq

abbrev FsPath := List String

abbrev FileSys := List (FsPath × JarFile)

def lookupFile (fs : FileSys) (p : FsPath) : Option JarFile :=
  (fs.find? (fun e => e.1 == p)).map (·.2)

def fileExists (fs : FileSys) (p : FsPath) : Bool :=
  (lookupFile fs p).isSome

/-- `Path::is_dir`: some file lies strictly below `p`. -/
def is_dir (fs : FileSys) (p : FsPath) : Bool :=
  fs.any (fun e => p.isPrefixOf e.1 && p != e.1)

/-- `Path::exists`: a file or a directory is at `p`. -/
def pathExists (fs : FileSys) (p : FsPath) : Bool :=
  fileExists fs p || is_dir fs p

/-- `fs::remove_file`. -/
def removeFile (fs : FileSys) (p : FsPath) : FileSys :=
  fs.filter (fun e => e.1 != p)

/-- `fs::rename` of a file: fails when the source is missing,
overwrites any file at the destination. -/
def renameFile (fs : FileSys) (src dst : FsPath) : Option FileSys :=
  match lookupFile fs src with
  | some f => some ((dst, f) :: removeFile (removeFile fs src) dst)
  | none => none

/-- `read_dir` restricted to plain files: the direct children of `dir`
that are files, as (name, content) pairs. -/
def readDirFiles (fs : FileSys) (dir : FsPath) : List (String × JarFile) :=
  fs.filterMap (fun e =>
    if e.1.take dir.length == dir && e.1.length == dir.length + 1 then
      match e.1.getLast? with
      | some name => some (name, e.2)
      | none => none
    else none)

/-- `path.extension() == "jar"` on a file name. -/
def hasJarExt (name : String) : Bool :=
  ".jar".data.isSuffixOf name.data && name != ".jar"

/-- The `if !filename.ends_with(".jar") { filename.push_str(".jar") }`
fixup in `install_mod`/`update_mod`. -/
def fixupJar (filename : String) : String :=
  if ".jar".data.isSuffixOf filename.data then filename else filename ++ ".jar"

/-- All files strictly below `dir`. -/
def filesUnder (fs : FileSys) (dir : FsPath) : List (FsPath × JarFile) :=
  fs.filter (fun e => dir.isPrefixOf e.1 && dir != e.1)

/-- `fs_extra::dir::get_size`: total size in bytes of the files below
`dir`. -/
def dirSize (fs : FileSys) (dir : FsPath) : Nat :=
  ((filesUnder fs dir).map (fun e => e.2.bytes.length)).sum

/-- `fs::remove_dir_all`. -/
def removeDirAll (fs : FileSys) (dir : FsPath) : FileSys :=
  fs.filter (fun e => !(dir.isPrefixOf e.1 && dir != e.1))

/-- `sv_fs::copy_dir_all`: every file below `src` is duplicated below
`dst` (modelled on the flat file list rather than the recursive
directory walk). -/
def copyDirAll (fs : FileSys) (src dst : FsPath) : FileSys :=
  fs ++ (filesUnder fs src).map (fun e => (dst ++ e.1.drop src.length, e.2))

/-- `ensure_dir`: only representable failure is a plain file sitting at
the directory path ("Path already exists and it's a file"). -/
def ensure_dir (fs : FileSys) (p : FsPath) : Bool :=
  !(fileExists fs p)

/-! ## Mod inventory (server_loop.rs `list_mods` / `query_mod` /
`list_mods_paged`) -/

/-- The fields of `yapper::ModInfo` the supervisor relies on. -/
structure ModInfo where
  filename : String
  path : FsPath
  mod_id : String
deriving DecidableEq

/-- `parse_mod` at the supervisor's boundary: open the archive at
`path`, return its identity or fail. -/
def parse_mod (fs : FileSys) (path : FsPath) : Option ModInfo :=
  match lookupFile fs path with
  | some jar =>
    match jar.meta with
    | some meta =>
      some { filename := path.getLastD "", path := path, mod_id := meta.mod_id }
    | none => none
  | none => none

def insertByModId (m : ModInfo) : List ModInfo → List ModInfo
  | [] => [m]
  | x :: xs => if m.mod_id ≤ x.mod_id then m :: x :: xs else x :: insertByModId m xs

/-- `vec.sort_by(|m1, m2| m1.mod_id.cmp(&m2.mod_id))`. -/
def sortByModId : List ModInfo → List ModInfo
  | [] => []
  | x :: xs => insertByModId x (sortByModId xs)

/-- `list_mods`: the `.jar` files directly inside `dir` whose metadata
parses (parse failures are skipped), sorted by `mod_id` ascending. -/
def list_mods (fs : FileSys) (dir : FsPath) : List ModInfo :=
  sortByModId ((readDirFiles fs dir).filterMap (fun e =>
    if hasJarExt e.1 then parse_mod fs (dir ++ [e.1]) else none))

/-- `query_mod`: first listed mod with the requested `mod_id`. -/
def query_mod (fs : FileSys) (dir : FsPath) (mod_id : String) : Option ModInfo :=
  (list_mods fs dir).find? (fun x => x.mod_id == mod_id)

/-- The `Response` variants produced by the supervisor's command
processing (`yapper::Response`; `Mod(..)` is `modInfo` here). -/
inductive Response
  | ok
  | err
  | invalidState
  | noBackup
  | modConflict
  | noSuchMod
  | commandOutput (output : String)
  | mods (infos : List ModInfo) (lastPage : Bool)
  | modInfo (info : ModInfo)
deriving DecidableEq

/-- The modulus of the source's `usize` arithmetic (64-bit target; the
wire `u64`s convert to `usize` losslessly). -/
def USIZE : Nat := 2 ^ 64

/-- `list_mods_paged`: `per_page == 0` returns everything flagged as
last page; otherwise `offset = per_page * page` and
`end = offset + per_page` are computed in `usize`, which wraps modulo
`2^64` in a release build, both are clamped to the inventory length,
and the slice `mods[offset..end]` is flagged as last exactly when
shorter than `per_page`.  `none` models the panic of `&mods[offset..end]`
when the wrapped `end` lands below `offset`. -/
def list_mods_paged (per_page page : Nat) (fs : FileSys) (modsPath : FsPath) :
    Option Response :=
  let mods := list_mods fs modsPath
  if per_page = 0 then some (.mods mods true)
  else
    let offset := per_page * page % USIZE
    let endIdx := (offset + per_page) % USIZE
    let offset := if offset > mods.length then mods.length else offset
    let endIdx := if endIdx > mods.length then mods.length else endIdx
    if offset = endIdx then some (.mods [] (decide (endIdx - offset < per_page)))
    else if offset ≤ endIdx then
      some (.mods ((mods.drop offset).take (endIdx - offset))
        (decide (endIdx - offset < per_page)))
    else none

/-! ## Supervisor state and mod lifecycle
(server_loop.rs `Shared`, `install_mod`, `update_mod`,
`uninstall_mod`, `gen_mods_zip`, `process_command_idle`, and the
deferred-command handling of `server_main`).

`SState` gathers the pieces of `Shared` and of the environment a
worker thread mutates: the filesystem, the atomic `status`, the
owning account's notification outbox, the `mods_up_to_date` cache
flag, and the packaged zip artifact written next to the process's
working directory. -/

structure SState where
  fs : FileSys
  status : Status
  outbox : List Notification
  modsUpToDate : Bool
  zipEntries : Option (List (String × List Nat))
deriving DecidableEq

/-- `Shared::update_status`: swap the atomic status and push a
`StatusChanged` notification only when the value actually changed. -/
def update_status (server : String) (st : SState) (status : Status) : SState :=
  let old := st.status
  if old ≠ status then
    { st with
      status := status
      outbox := push_notif st.outbox (.statusChanged server old status) }
  else
    { st with status := status }

/-- `get_backup_path`: the sibling of the working directory tagged with
`.bak`. -/
def backupPath (base : FsPath) : FsPath :=
  base.dropLast ++ [base.getLastD "" ++ ".bak"]

/-- `get_mods_path`: `<working>/mods`, after `ensure_dir`. -/
def getModsPath (fs : FileSys) (base : FsPath) : Option FsPath :=
  if ensure_dir fs (base ++ ["mods"]) then some (base ++ ["mods"]) else none

/-- The destination-search loop of `install_mod`/`update_mod`, with
explicit fuel standing for the number of iterations: while the
destination exists, the file name is rewritten to
`"{filename}-2.jar"` (the same name at every iteration).  `none`
means the fuel ran out — the source loop would still be running. -/
def dedupLoop (fs : FileSys) (modsFolder : FsPath) (filename : String) :
    Nat → FsPath → Option FsPath
  | 0, _ => none
  | fuel + 1, dest =>
    if pathExists fs dest then
      dedupLoop fs modsFolder filename fuel (modsFolder ++ [filename ++ "-2.jar"])
    else some dest

/-- Closed form of the destination-search loop: the preferred name if
free, else the single `-2.jar` variant if free, else the loop never
terminates (`none`). -/
def dedupDest (fs : FileSys) (modsFolder : FsPath) (filename : String) :
    Option FsPath :=
  if !pathExists fs (modsFolder ++ [filename]) then
    some (modsFolder ++ [filename])
  else if !pathExists fs (modsFolder ++ [filename ++ "-2.jar"]) then
    some (modsFolder ++ [filename ++ "-2.jar"])
  else none

theorem dedupLoop_stuck (fs : FileSys) (modsFolder : FsPath) (filename : String)
    (h : pathExists fs (modsFolder ++ [filename ++ "-2.jar"]) = true) :
    ∀ fuel, dedupLoop fs modsFolder filename fuel
      (modsFolder ++ [filename ++ "-2.jar"]) = none := by
  intro fuel
  induction fuel with
  | zero => rfl
  | succ n ih => rw [dedupLoop, if_pos h, ih]

theorem dedupLoop_eq_dedupDest (fs : FileSys) (modsFolder : FsPath)
    (filename : String) (fuel : Nat) (h : 2 ≤ fuel) :
    dedupLoop fs modsFolder filename fuel (modsFolder ++ [filename])
      = dedupDest fs modsFolder filename := by
  obtain ⟨n, rfl⟩ : ∃ n, fuel = n + 2 := ⟨fuel - 2, by omega⟩
  unfold dedupDest
  by_cases h1 : pathExists fs (modsFolder ++ [filename])
  · rw [dedupLoop, if_pos h1]
    by_cases h2 : pathExists fs (modsFolder ++ [filename ++ "-2.jar"])
    · rw [dedupLoop_stuck fs modsFolder filename h2, h1, h2]
      rfl
    · rw [dedupLoop, if_neg h2, h1]
      simp [h2]
  · rw [dedupLoop, if_neg h1]
    simp [h1]

/-- `install_mod`.  `modsPath?` is the result of the `mods()` closure
(`get_mods_path`), evaluated — as in the source — after the
`DelOnDrop` guard is armed on the staged file; every exit that does
not reach `del.forgive()` removes the staged file.  The overall
`Option` is `none` when the destination-search loop diverges. -/
def install_mod (server : String) (current_path : FsPath) (filename : String)
    (modsPath? : Option FsPath) (st : SState) : Option (Response × SState) :=
  let filename := fixupJar filename
  match modsPath? with
  | none =>
    some (.err, update_status server
      { st with fs := removeFile st.fs current_path } .idle)
  | some modsPath =>
    let mods_folder := modsPath ++ ["mods"]
    if !ensure_dir st.fs mods_folder then
      some (.err, update_status server
        { st with fs := removeFile st.fs current_path } .idle)
    else
      match parse_mod st.fs current_path with
      | none =>
        some (.err, update_status server
          { st with fs := removeFile st.fs current_path } .idle)
      | some to_install =>
        let all := list_mods st.fs mods_folder
        if all.any (fun m => m.mod_id == to_install.mod_id) then
          some (.modConflict, update_status server
            { st with fs := removeFile st.fs current_path } .idle)
        else
          let st1 := update_status server st .modding
          match dedupDest st1.fs mods_folder filename with
          | none => none
          | some dest =>
            match renameFile st1.fs current_path dest with
            | none =>
              some (.err, update_status server
                { st1 with fs := removeFile st1.fs current_path } .idle)
            | some fs2 =>
              some (.ok, update_status server
                { st1 with fs := fs2, modsUpToDate := false } .idle)

/-- `update_mod`: same move semantics as `install_mod` but requires a
pre-existing mod with the same `mod_id`, whose old file is removed
first. -/
def update_mod (server : String) (current_path : FsPath) (filename : String)
    (modsPath? : Option FsPath) (st : SState) : Option (Response × SState) :=
  let filename := fixupJar filename
  match modsPath? with
  | none =>
    some (.err, update_status server
      { st with fs := removeFile st.fs current_path } .idle)
  | some modsPath =>
    let mods_folder := modsPath ++ ["mods"]
    if !ensure_dir st.fs mods_folder then
      some (.err, update_status server
        { st with fs := removeFile st.fs current_path } .idle)
    else
      match parse_mod st.fs current_path with
      | none =>
        some (.err, update_status server
          { st with fs := removeFile st.fs current_path } .idle)
      | some to_install =>
        let all := list_mods st.fs mods_folder
        match all.find? (fun m => m.mod_id == to_install.mod_id) with
        | some modd =>
          let st1 := update_status server st .modding
          match dedupDest st1.fs mods_folder filename with
          | none => none
          | some dest =>
            let fs1 := removeFile st1.fs modd.path
            match renameFile fs1 current_path dest with
            | none =>
              some (.err, update_status server
                { st1 with fs := removeFile fs1 current_path } .idle)
            | some fs2 =>
              some (.ok, update_status server
                { st1 with fs := fs2, modsUpToDate := false } .idle)
        | none =>
          some (.noSuchMod, update_status server
            { st with fs := removeFile st.fs current_path } .idle)

/-- `uninstall_mod`. -/
def uninstall_mod (server : String) (mod_id : String)
    (modsPath? : Option FsPath) (st : SState) : Response × SState :=
  match modsPath? with
  | none => (.err, update_status server st .idle)
  | some modsPath =>
    let mods_folder := modsPath ++ ["mods"]
    if !ensure_dir st.fs mods_folder then
      (.err, update_status server st .idle)
    else
      match (list_mods st.fs mods_folder).find? (fun m => m.mod_id == mod_id) with
      | some modd =>
        let st1 := update_status server st .modding
        (.ok, update_status server
          { st1 with
            fs := removeFile st1.fs modd.path
            modsUpToDate := false } .idle)
      | none => (.noSuchMod, update_status server st .idle)

/-! ## The idle command loop (server_loop.rs `Command`,
`process_command_idle`, and the deferred-command handling in
`server_main`'s idle regime) -/

inductive Command
  | doNothing
  | console (cmd : String)
  | backup
  | restore
  | listMods (per_page page : Nat)
  | installMod (path : FsPath) (filename : String)
  | uninstallMod (mod_id : String)
  | updateMod (path : FsPath) (filename : String)
  | queryMod (mod_id : String)
  | generateModsZip
deriving DecidableEq

/-- `process_command_idle`: synchronous commands are executed in place;
`Backup`, `Restore` (when a backup exists) and `GenerateModsZip` are
deferred, answered `Ok` immediately.  Errors surface as `Response::Err`
(`server_main`'s `.unwrap_or(Response::Err)`).  `none` models an
abnormal end of the worker: the divergence of the destination-search
loop, or the slice panic of `list_mods_paged`. -/
def process_command_idle (server : String) (base : FsPath) (cmd : Command)
    (st : SState) : Option (Response × SState × Command) :=
  match cmd with
  | .backup => some (.ok, st, .backup)
  | .restore =>
    if !is_dir st.fs (backupPath base) then some (.noBackup, st, .doNothing)
    else some (.ok, st, .restore)
  | .listMods per_page page =>
    match getModsPath st.fs base with
    | some mp =>
      match list_mods_paged per_page page st.fs mp with
      | some resp => some (resp, st, .doNothing)
      | none => none
    | none => some (.err, st, .doNothing)
  | .queryMod mod_id =>
    match getModsPath st.fs base with
    | some mp =>
      match query_mod st.fs mp mod_id with
      | some info => some (.modInfo info, st, .doNothing)
      | none => some (.err, st, .doNothing)
    | none => some (.err, st, .doNothing)
  | .installMod path filename =>
    (install_mod server path filename (getModsPath st.fs base) st).map
      (fun r => (r.1, r.2, .doNothing))
  | .updateMod path filename =>
    (update_mod server path filename (getModsPath st.fs base) st).map
      (fun r => (r.1, r.2, .doNothing))
  | .uninstallMod mod_id =>
    let r := uninstall_mod server mod_id (getModsPath st.fs base) st
    some (r.1, r.2, .doNothing)
  | .generateModsZip => some (.ok, st, .generateModsZip)
  | _ => some (.invalidState, st, .doNothing)

/-- The per-file progress pushes of the `copy_dir_all` callback and of
`gen_mods_zip`'s progress closure: after each file the cumulative byte
count is pushed through `replace_notif_if` with the kind predicate. -/
def copyProgressOutbox (outbox : List Notification)
    (mk : Nat → Nat → Notification) (kind : Notification → Bool)
    (sizes : List Nat) (total : Nat) : List Notification :=
  (sizes.foldl (fun acc size =>
    (acc.1 + size, replace_notif_if (mk (acc.1 + size) total) kind acc.2))
    (0, outbox)).2

/-- The deferred-command handling at the bottom of `server_main`'s idle
loop.  `uploadUrl` abstracts the external asset endpoint
(`upload_zip`): `some url` is a successful upload, `none` a failure.
The returned `Bool` reports whether the zip-writing step of
`gen_mods_zip` ran (the "compression work" of the packaged-zip
cache). -/
def runDeferred (server : String) (base : FsPath) (uploadUrl : Option String)
    (cmd : Command) (st : SState) : SState × Bool :=
  match cmd with
  | .backup =>
    let st1 := update_status server st .backingUp
    let bak := backupPath base
    let fs1 := removeDirAll st1.fs bak
    if !is_dir fs1 base then
      let st2 := update_status server { st1 with fs := fs1 } .idle
      let ob2 := push_notif st2.outbox (.backupFailed server "Error copying data")
      ({ st2 with outbox := ob2 }, false)
    else
      let total := dirSize fs1 base
      let sizes := (filesUnder fs1 base).map (fun e => e.2.bytes.length)
      let ob := copyProgressOutbox st1.outbox
        (fun c t => .backupProgress server c t)
        Notification.is_backup_progress sizes total
      (update_status server
        { st1 with fs := copyDirAll fs1 base bak, outbox := ob } .idle, false)
  | .restore =>
    let bak := backupPath base
    if !is_dir st.fs bak then
      let st1 := update_status server st .idle
      let ob1 := push_notif st1.outbox (.restoreFailed server "No backup to restore")
      ({ st1 with outbox := ob1 }, false)
    else
      let st1 := update_status server st .restoring
      let fs1 := removeDirAll st1.fs base
      if !is_dir fs1 bak then
        let st2 := update_status server { st1 with fs := fs1 } .idle
        let ob2 := push_notif st2.outbox (.restoreFailed server "Error copying data")
        ({ st2 with outbox := ob2 }, false)
      else
        let total := dirSize fs1 bak
        let sizes := (filesUnder fs1 bak).map (fun e => e.2.bytes.length)
        let ob := copyProgressOutbox st1.outbox
          (fun c t => .restoreProgress server c t)
          Notification.is_restore_progress sizes total
        (update_status server
          { st1 with fs := copyDirAll fs1 bak base, outbox := ob } .idle, false)
  | .generateModsZip =>
    if !st.modsUpToDate then
      let st1 := update_status server st .packaging
      match getModsPath st1.fs base with
      | none =>
        let st2 := update_status server st1 .idle
        let ob2 := push_notif st2.outbox (.zipFailed server "Error generating mods zip file")
        ({ st2 with outbox := ob2 }, false)
      | some mp =>
        let entries := (readDirFiles st1.fs mp).filter (fun e => hasJarExt e.1)
        let total := dirSize st1.fs mp
        let sizes := entries.map (fun e => e.2.bytes.length)
        let ob := copyProgressOutbox st1.outbox
          (fun c t => .zipProgress server (.zipping c t))
          Notification.is_package_progress sizes total
        let st2 := { st1 with
          outbox := ob
          zipEntries := some (entries.map (fun e => (e.1, e.2.bytes)))
          modsUpToDate := true }
        match uploadUrl with
        | some url =>
          let st3 := update_status server st2 .idle
          let ob3 := push_notif st3.outbox (.zipFile server url)
          ({ st3 with outbox := ob3 }, true)
        | none =>
          let st3 := update_status server st2 .idle
          let ob3 := push_notif st3.outbox (.zipFailed server "Error uploading mods zip file")
          ({ st3 with outbox := ob3 }, true)
    else
      match uploadUrl with
      | some url =>
        let st1 := update_status server st .idle
        let ob1 := push_notif st1.outbox (.zipFile server url)
        ({ st1 with outbox := ob1 }, false)
      | none =>
        let st1 := update_status server st .idle
        let ob1 := push_notif st1.outbox (.zipFailed server "Error uploading mods zip file")
        ({ st1 with outbox := ob1 }, false)
  | _ => (st, false)

/-- One pass of the idle loop: process one command, then run whatever
it deferred.  The `Bool` reports whether zip-writing work ran. -/
def runIdleIteration (server : String) (base : FsPath)
    (uploadUrl : Option String) (cmd : Command) (st : SState) :
    Option (Response × SState × Bool) :=
  match process_command_idle server base cmd st with
  | some (resp, st1, deferred) =>
    let r := runDeferred server base uploadUrl deferred st1
    some (resp, r.1, r.2)
  | none => none

/-- A sequence of idle-loop passes, collecting the responses. -/
def runTrace (server : String) (base : FsPath) :
    List (Command × Option String) → SState → Option (SState × List Response)
  | [], st => some (st, [])
  | (cmd, url) :: rest, st =>
    match runIdleIteration server base url cmd st with
    | some (resp, st1, _) =>
      match runTrace server base rest st1 with
      | some (stf, resps) => some (stf, resp :: resps)
      | none => none
    | none => none

/-- The commands whose success invalidates the packaged-zip cache. -/
def isModChangeCmd : Command → Bool
  | .installMod _ _ => true
  | .updateMod _ _ => true
  | .uninstallMod _ => true
  | _ => false

/-! ### Filesystem helper lemmas -/

theorem lookupFile_removeFile_self (fs : FileSys) (p : FsPath) :
    lookupFile (removeFile fs p) p = none := by
  have hfind : List.find? (fun e => e.1 == p) (removeFile fs p) = none := by
    rw [List.find?_eq_none]
    intro x hx
    have hne := (List.mem_filter.mp hx).2
    simp only [bne_iff_ne, ne_eq] at hne
    simp [hne]
  unfold lookupFile
  rw [hfind]
  rfl

theorem lookupFile_removeFile_ne (fs : FileSys) (p q : FsPath) (h : q ≠ p) :
    lookupFile (removeFile fs p) q = lookupFile fs q := by
  induction fs with
  | nil => rfl
  | cons e fs ih =>
    unfold lookupFile removeFile at ih ⊢
    rw [List.filter_cons]
    by_cases he : e.1 = p
    · rw [if_neg (by simp [he]), ih]
      rw [List.find?_cons_of_neg _ (by simp [he]; exact fun hc => h hc.symm)]
    · rw [if_pos (by simp [he])]
      by_cases heq : e.1 = q
      · rw [List.find?_cons_of_pos _ (by simp [heq]),
          List.find?_cons_of_pos _ (by simp [heq])]
      · rw [List.find?_cons_of_neg _ (by simp [heq]),
          List.find?_cons_of_neg _ (by simp [heq]), ih]

theorem update_status_modsUpToDate (server : String) (st : SState) (s : Status) :
    (update_status server st s).modsUpToDate = st.modsUpToDate := by
  unfold update_status
  by_cases h : st.status ≠ s
  · rw [if_pos h]
  · rw [if_neg h]

theorem update_status_fs (server : String) (st : SState) (s : Status) :
    (update_status server st s).fs = st.fs := by
  unfold update_status
  by_cases h : st.status ≠ s
  · rw [if_pos h]
  · rw [if_neg h]

/-! ### C6 — status-change deduplication -/

/-- C6 — Status-change deduplication: `Shared::update_status` pushes a
`StatusChanged(server, old, new)` notification to the account's outbox
exactly when the new status differs from the current one; setting the
status to its current value changes nothing at all. -/
theorem status_change_dedup (server : String) (st : SState) (new : Status) :
    (new ≠ st.status →
      update_status server st new
        = { st with
            status := new
            outbox := st.outbox ++ [.statusChanged server st.status new] }) ∧
    (new = st.status → update_status server st new = st) := by
  constructor
  · intro h
    unfold update_status push_notif
    rw [if_pos (Ne.symm h)]
  · intro h
    subst h
    unfold update_status
    rw [if_neg (fun hn => hn rfl)]

def c6_state : SState := ⟨[], .idle, [], false, none⟩

/-- C6 witness: updating an `Idle` supervisor to `Running` pushes one
`StatusChanged` notification. -/
theorem status_change_dedup_witness :
    update_status "survival" c6_state .running
      = { c6_state with
          status := .running
          outbox := [.statusChanged "survival" .idle .running] } :=
  (status_change_dedup "survival" c6_state .running).1 (by decide)

/-! ### C9 — Restore with no backup directory -/

/-- C9 — `Restore` in the idle regime with no backup directory: the
supervisor answers `NoBackup`, defers nothing, and the state — status,
filesystem (working directory included) and outbox — is unchanged. -/
theorem restore_no_backup (server : String) (base : FsPath)
    (url : Option String) (st : SState)
    (h : is_dir st.fs (backupPath base) = false) :
    runIdleIteration server base url .restore st = some (.noBackup, st, false) := by
  unfold runIdleIteration process_command_idle
  rw [h]
  rfl

def c9_state : SState := ⟨[], .idle, [], false, none⟩

/-- C9 witness: on an empty filesystem the backup directory does not
exist, and `Restore` answers `NoBackup` leaving the state unchanged. -/
theorem restore_no_backup_witness :
    runIdleIteration "survival" ["srv", "survival"] none .restore c9_state
      = some (.noBackup, c9_state, false) :=
  restore_no_backup "survival" ["srv", "survival"] none c9_state rfl

/-! ### C10 — the destination-search loop -/

def c10_fs : FileSys :=
  [(["d", "mods", "mods", "m.jar"], ⟨[0], none⟩),
   (["d", "mods", "mods", "m.jar" ++ "-2.jar"], ⟨[1], none⟩)]

/-- C10 — the destination-search loop of `install_mod`/`update_mod`
does NOT terminate for every occupancy state: when both the preferred
name and its single `-2.jar` variant are occupied, the loop rewrites
the same file name forever, so no amount of iterations reaches an
unoccupied destination. -/
theorem dedup_search_diverges :
    (∀ fuel, dedupLoop c10_fs ["d", "mods", "mods"] "m.jar" fuel
      (["d", "mods", "mods"] ++ ["m.jar"]) = none) ∧
    pathExists c10_fs (["d", "mods", "mods"] ++ ["m.jar"]) = true ∧
    pathExists c10_fs (["d", "mods", "mods"] ++ ["m.jar" ++ "-2.jar"]) = true := by
  have h1 : pathExists c10_fs (["d", "mods", "mods"] ++ ["m.jar"]) = true := by
    decide
  have h2 : pathExists c10_fs
      (["d", "mods", "mods"] ++ ["m.jar" ++ "-2.jar"]) = true := by decide
  refine ⟨?_, h1, h2⟩
  intro fuel
  cases fuel with
  | zero => rfl
  | succ n =>
    rw [dedupLoop, if_pos h1]
    exact dedupLoop_stuck c10_fs ["d", "mods", "mods"] "m.jar" h2 n

/-! ### C2 — install with a conflicting modId -/

/-- C2 (amended) — installing a staged archive whose `modId` collides
with a mod already in the directory `install_mod` scans returns
`ModConflict` and leaves the already-installed mod file untouched byte
for byte, but the staged file is DELETED: the `DelOnDrop` guard is
only disarmed on the successful-install path, so it removes the staged
file when the conflict path returns. -/
theorem install_conflict_keeps_installed (server : String) (mp staged : FsPath)
    (fname : String) (st : SState) (info m : ModInfo)
    (hensure : ensure_dir st.fs (mp ++ ["mods"]) = true)
    (hparse : parse_mod st.fs staged = some info)
    (hm : m ∈ list_mods st.fs (mp ++ ["mods"]))
    (hid : m.mod_id = info.mod_id)
    (hne : staged ≠ m.path) :
    install_mod server staged fname (some mp) st
      = some (.modConflict, update_status server
          { st with fs := removeFile st.fs staged } .idle) ∧
    lookupFile (removeFile st.fs staged) m.path = lookupFile st.fs m.path ∧
    lookupFile (removeFile st.fs staged) staged = none := by
  have hany : (list_mods st.fs (mp ++ ["mods"])).any
      (fun x => x.mod_id == info.mod_id) = true :=
    List.any_eq_true.mpr ⟨m, hm, beq_iff_eq.mpr hid⟩
  refine ⟨?_, lookupFile_removeFile_ne st.fs staged m.path (Ne.symm hne),
    lookupFile_removeFile_self st.fs staged⟩
  unfold install_mod
  dsimp only
  rw [hensure]
  simp only [Bool.not_true, Bool.false_eq_true, if_false, hparse, hany, if_true]

def c2_fs : FileSys :=
  [(["stage", "new.jar"], ⟨[7], some ⟨"x"⟩⟩),
   (["d", "mods", "mods", "e.jar"], ⟨[9], some ⟨"x"⟩⟩)]

def c2_state : SState := ⟨c2_fs, .idle, [], false, none⟩

/-- C2 counterexample: a conflicting install returns `ModConflict`, the
already-installed mod file is intact, but the staged file is gone
afterwards — refuting "the staged file still exists at its staging
path". -/
theorem install_conflict_counterexample :
    (runIdleIteration "survival" ["d"] none
        (.installMod ["stage", "new.jar"] "new.jar") c2_state).map
      (fun r => (r.1, lookupFile r.2.1.fs ["stage", "new.jar"],
        lookupFile r.2.1.fs ["d", "mods", "mods", "e.jar"]))
      = some (.modConflict, none, some ⟨[9], some ⟨"x"⟩⟩) := by
  decide

/-- C2 witness: the amended theorem applied to the concrete conflicting
install. -/
theorem install_conflict_keeps_installed_witness :
    install_mod "survival" ["stage", "new.jar"] "new.jar" (some ["d", "mods"])
        c2_state
      = some (.modConflict, update_status "survival"
          { c2_state with fs := removeFile c2_state.fs ["stage", "new.jar"] }
          .idle) :=
  (install_conflict_keeps_installed "survival" ["d", "mods"]
    ["stage", "new.jar"] "new.jar" c2_state
    ⟨"new.jar", ["stage", "new.jar"], "x"⟩
    ⟨"e.jar", ["d", "mods", "mods", "e.jar"], "x"⟩
    (by decide) (by decide) (by decide) rfl (by decide)).1

/-! ### C3 — successful install versus the listed mod directory

`get_mods_path` already returns `<working>/mods`, but `install_mod`
(and `update_mod`, `uninstall_mod`) joins another `"mods"` onto the
closure's result, so a successful install moves the staged file into
`<working>/mods/mods/…` while `ListMods` and `QueryMod` scan
`<working>/mods`. -/

def c3_fs : FileSys := [(["stage", "m.jar"], ⟨[7], some ⟨"x"⟩⟩)]

def c3_state : SState := ⟨c3_fs, .idle, [], false, none⟩

/-- C3 — a successful install returns `Ok` and removes the staged
file, but the mod lands at `<working>/mods/mods/m.jar` (the `"mods"`
component is joined twice), and the subsequent `ListMods(0, 0)` — which
scans `<working>/mods` — returns an empty inventory that does not
contain the installed `modId`. -/
theorem install_not_listed :
    (runIdleIteration "survival" ["d"] none
        (.installMod ["stage", "m.jar"] "m.jar") c3_state).map
      (fun r => (r.1, lookupFile r.2.1.fs ["stage", "m.jar"],
        lookupFile r.2.1.fs ["d", "mods", "mods", "m.jar"],
        (runIdleIteration "survival" ["d"] none (.listMods 0 0) r.2.1).map
          (fun q => q.1)))
      = some (.ok, none, some ⟨[7], some ⟨"x"⟩⟩, some (.mods [] true)) := by
  decide

/-! ### C8 — mod listing pagination -/

theorem mem_insertByModId (m a : ModInfo) (l : List ModInfo) :
    a ∈ insertByModId m l ↔ a = m ∨ a ∈ l := by
  induction l with
  | nil => simp [insertByModId]
  | cons x xs ih =>
    unfold insertByModId
    by_cases h : m.mod_id ≤ x.mod_id
    · simp [h]
    · rw [if_neg h]
      simp only [List.mem_cons, ih]
      tauto

theorem sorted_insertByModId (m : ModInfo) (l : List ModInfo)
    (h : l.Sorted (fun a b => a.mod_id ≤ b.mod_id)) :
    (insertByModId m l).Sorted (fun a b => a.mod_id ≤ b.mod_id) := by
  induction l with
  | nil => simp [insertByModId]
  | cons x xs ih =>
    rw [List.sorted_cons] at h
    unfold insertByModId
    by_cases hle : m.mod_id ≤ x.mod_id
    · rw [if_pos hle, List.sorted_cons]
      refine ⟨?_, List.sorted_cons.mpr h⟩
      intro b hb
      rcases List.mem_cons.mp hb with rfl | hb
      · exact hle
      · exact le_trans hle (h.1 b hb)
    · rw [if_neg hle, List.sorted_cons]
      refine ⟨?_, ih h.2⟩
      intro b hb
      rcases (mem_insertByModId m b xs).mp hb with rfl | hb
      · exact le_of_not_le hle
      · exact h.1 b hb

theorem sorted_sortByModId (l : List ModInfo) :
    (sortByModId l).Sorted (fun a b => a.mod_id ≤ b.mod_id) := by
  induction l with
  | nil => simp [sortByModId]
  | cons x xs ih => exact sorted_insertByModId x _ ih

/-- C8 (amended) — Mod listing pagination: the inventory is sorted by
`modId` ascending; `pageSize == 0` returns the whole inventory flagged
as the last page; and a request with `pageSize > 0` whose `usize`
index arithmetic does not overflow
(`pageSize*pageIndex + pageSize < 2^64`) returns the slice
`[pageSize*pageIndex, pageSize*(pageIndex+1))` clamped to the
inventory length, flagged as the last page exactly when the returned
slice is shorter than `pageSize`. -/
theorem list_mods_pagination (fs : FileSys) (dir : FsPath) (per_page page : Nat) :
    ((list_mods fs dir).Sorted (fun a b => a.mod_id ≤ b.mod_id)) ∧
    (list_mods_paged 0 page fs dir = some (.mods (list_mods fs dir) true)) ∧
    (0 < per_page → per_page * page + per_page < 2 ^ 64 →
      list_mods_paged per_page page fs dir
        = some (.mods (((list_mods fs dir).drop (per_page * page)).take per_page)
            (decide ((((list_mods fs dir).drop (per_page * page)).take
              per_page).length < per_page)))) := by
  refine ⟨sorted_sortByModId _, by simp [list_mods_paged], ?_⟩
  intro hpp hw
  unfold list_mods_paged
  rw [if_neg (by omega)]
  dsimp only
  set mods := list_mods fs dir with hmods
  have hm1 : per_page * page % USIZE = per_page * page :=
    Nat.mod_eq_of_lt (by unfold USIZE; omega)
  rw [hm1]
  have hm2 : (per_page * page + per_page) % USIZE = per_page * page + per_page :=
    Nat.mod_eq_of_lt (by unfold USIZE; omega)
  rw [hm2]
  set o := if per_page * page > mods.length then mods.length
    else per_page * page with ho
  set e := if per_page * page + per_page > mods.length then mods.length
    else per_page * page + per_page with he
  have hoval : o = min (per_page * page) mods.length := by
    rw [ho]; split <;> omega
  have heval : e = min (per_page * page + per_page) mods.length := by
    rw [he]; split <;> omega
  have hdl : (mods.drop (per_page * page)).length
      = mods.length - per_page * page := by simp
  have hlen : ((mods.drop (per_page * page)).take per_page).length
      = min per_page (mods.length - per_page * page) := by simp
  by_cases heq : o = e
  · rw [if_pos heq]
    have hdrop : mods.drop (per_page * page) = [] :=
      List.drop_eq_nil_of_le (by omega)
    rw [hdrop, List.take_nil]
    have hfl : decide (e - o < per_page)
        = decide ((([] : List ModInfo).length < per_page)) := by
      exact decide_eq_decide.mpr (by simp; omega)
    rw [hfl]
  · rw [if_neg heq, if_pos (by omega)]
    have hA : per_page * page < mods.length := by omega
    have ho1 : o = per_page * page := by omega
    have hslice : (mods.drop o).take (e - o)
        = (mods.drop (per_page * page)).take per_page := by
      rw [ho1]
      by_cases hB : per_page * page + per_page ≥ mods.length
      · have he1 : e = mods.length := by omega
        rw [he1]
        rw [show mods.length - per_page * page
            = (mods.drop (per_page * page)).length from hdl.symm]
        rw [List.take_length, List.take_of_length_le (by rw [hdl]; omega)]
      · push_neg at hB
        have he1 : e = per_page * page + per_page := by omega
        rw [he1, show per_page * page + per_page - per_page * page = per_page
          from by omega]
    have hfl : decide (e - o < per_page)
        = decide (((mods.drop (per_page * page)).take per_page).length
            < per_page) := by
      rw [hlen]
      exact decide_eq_decide.mpr (by omega)
    rw [hslice, hfl]

def c8_fs : FileSys := [(["d", "mods", "m.jar"], ⟨[7], some ⟨"x"⟩⟩)]

/-- C8 counterexample: the wire-legal request
`ListMods(2^32, 2^32)` wraps `offset = 2^32 * 2^32` to `0` in the
source's `usize` arithmetic, so the whole one-element inventory is
returned where the claim prescribes the clamped-empty slice
`[2^64, 2^64 + 2^32)`. -/
theorem pagination_overflow_counterexample :
    list_mods_paged (2 ^ 32) (2 ^ 32) c8_fs ["d", "mods"]
      = some (.mods [⟨"m.jar", ["d", "mods", "m.jar"], "x"⟩] true) ∧
    ((list_mods c8_fs ["d", "mods"]).drop (2 ^ 32 * 2 ^ 32)).take (2 ^ 32)
      = [] ∧
    [(⟨"m.jar", ["d", "mods", "m.jar"], "x"⟩ : ModInfo)] ≠ [] := by
  refine ⟨by decide, ?_, by decide⟩
  have hlst : list_mods c8_fs ["d", "mods"]
      = [⟨"m.jar", ["d", "mods", "m.jar"], "x"⟩] := by decide
  rw [hlst]
  rw [List.drop_eq_nil_of_le (by norm_num), List.take_nil]

/-- C8 witness: the amended pagination equation instantiated at
`pageSize = 2`, `pageIndex = 0` on the empty inventory. -/
theorem list_mods_pagination_witness :
    list_mods_paged 2 0 [] ["d", "mods"] = some (.mods [] true) :=
  (list_mods_pagination [] ["d", "mods"] 2 0).2.2 (by omega) (by norm_num)

/-! ### C7 — the packaged-zip cache -/

theorem install_mod_flag (server : String) (cp : FsPath) (fn : String)
    (mp? : Option FsPath) (st : SState) (r : Response) (st' : SState)
    (h : install_mod server cp fn mp? st = some (r, st')) :
    st'.modsUpToDate = if r = .ok then false else st.modsUpToDate := by
  unfold install_mod at h
  dsimp only at h
  split at h
  all_goals try split at h
  all_goals try split at h
  all_goals try split at h
  all_goals try split at h
  all_goals try split at h
  all_goals try exact Option.noConfusion h
  all_goals
    simp only [Option.some.injEq, Prod.mk.injEq] at h
    obtain ⟨hr, hst⟩ := h
    rw [← hst, ← hr]
    first
      | (rw [if_pos rfl]; simp only [update_status_modsUpToDate])
      | (rw [if_neg (by decide)]; simp only [update_status_modsUpToDate])

theorem update_mod_flag (server : String) (cp : FsPath) (fn : String)
    (mp? : Option FsPath) (st : SState) (r : Response) (st' : SState)
    (h : update_mod server cp fn mp? st = some (r, st')) :
    st'.modsUpToDate = if r = .ok then false else st.modsUpToDate := by
  unfold update_mod at h
  dsimp only at h
  split at h
  all_goals try split at h
  all_goals try split at h
  all_goals try split at h
  all_goals try split at h
  all_goals try split at h
  all_goals try exact Option.noConfusion h
  all_goals
    simp only [Option.some.injEq, Prod.mk.injEq] at h
    obtain ⟨hr, hst⟩ := h
    rw [← hst, ← hr]
    first
      | (rw [if_pos rfl]; simp only [update_status_modsUpToDate])
      | (rw [if_neg (by decide)]; simp only [update_status_modsUpToDate])

theorem uninstall_mod_flag (server : String) (mod_id : String)
    (mp? : Option FsPath) (st : SState) (r : Response) (st' : SState)
    (h : uninstall_mod server mod_id mp? st = (r, st')) :
    st'.modsUpToDate = if r = .ok then false else st.modsUpToDate := by
  unfold uninstall_mod at h
  dsimp only at h
  split at h
  all_goals try split at h
  all_goals try split at h
  all_goals
    simp only [Prod.mk.injEq] at h
    obtain ⟨hr, hst⟩ := h
    rw [← hst, ← hr]
    first
      | (rw [if_pos rfl]; simp only [update_status_modsUpToDate])
      | (rw [if_neg (by decide)]; simp only [update_status_modsUpToDate])

theorem process_flag (server : String) (base : FsPath) (cmd : Command)
    (st : SState) (resp : Response) (st1 : SState) (d : Command)
    (hflag : st.modsUpToDate = true)
    (hp : process_command_idle server base cmd st = some (resp, st1, d))
    (hr : isModChangeCmd cmd = true → resp ≠ .ok) :
    st1.modsUpToDate = true := by
  cases cmd with
  | installMod p f =>
    simp only [process_command_idle, Option.map_eq_some'] at hp
    obtain ⟨⟨r0, st0⟩, hi, heq⟩ := hp
    simp only [Prod.mk.injEq] at heq
    obtain ⟨hr0, hst0, _⟩ := heq
    have hf := install_mod_flag server p f (getModsPath st.fs base) st r0 st0 hi
    rw [hst0] at hf
    rw [hf, if_neg (fun hc => hr rfl (hr0 ▸ hc))]
    exact hflag
  | updateMod p f =>
    simp only [process_command_idle, Option.map_eq_some'] at hp
    obtain ⟨⟨r0, st0⟩, hi, heq⟩ := hp
    simp only [Prod.mk.injEq] at heq
    obtain ⟨hr0, hst0, _⟩ := heq
    have hf := update_mod_flag server p f (getModsPath st.fs base) st r0 st0 hi
    rw [hst0] at hf
    rw [hf, if_neg (fun hc => hr rfl (hr0 ▸ hc))]
    exact hflag
  | uninstallMod mid =>
    simp only [process_command_idle, Option.some.injEq, Prod.mk.injEq] at hp
    obtain ⟨hr0, hst0, _⟩ := hp
    have hf := uninstall_mod_flag server mid (getModsPath st.fs base) st
      (uninstall_mod server mid (getModsPath st.fs base) st).1
      (uninstall_mod server mid (getModsPath st.fs base) st).2 rfl
    rw [hst0] at hf
    rw [hf, if_neg (fun hc => hr rfl (by rw [← hr0]; exact hc))]
    exact hflag
  | restore =>
    simp only [process_command_idle] at hp
    split at hp <;>
      (simp only [Option.some.injEq, Prod.mk.injEq] at hp
       obtain ⟨_, h2, _⟩ := hp
       rw [← h2]
       exact hflag)
  | listMods a b =>
    simp only [process_command_idle] at hp
    split at hp
    all_goals try split at hp
    all_goals try exact Option.noConfusion hp
    all_goals
      simp only [Option.some.injEq, Prod.mk.injEq] at hp
      obtain ⟨_, h2, _⟩ := hp
      rw [← h2]
      exact hflag
  | queryMod mid =>
    simp only [process_command_idle] at hp
    split at hp
    all_goals try split at hp
    all_goals
      simp only [Option.some.injEq, Prod.mk.injEq] at hp
      obtain ⟨_, h2, _⟩ := hp
      rw [← h2]
      exact hflag
  | doNothing =>
    simp only [process_command_idle, Option.some.injEq, Prod.mk.injEq] at hp
    obtain ⟨_, h2, _⟩ := hp
    rw [← h2]
    exact hflag
  | console c =>
    simp only [process_command_idle, Option.some.injEq, Prod.mk.injEq] at hp
    obtain ⟨_, h2, _⟩ := hp
    rw [← h2]
    exact hflag
  | backup =>
    simp only [process_command_idle, Option.some.injEq, Prod.mk.injEq] at hp
    obtain ⟨_, h2, _⟩ := hp
    rw [← h2]
    exact hflag
  | generateModsZip =>
    simp only [process_command_idle, Option.some.injEq, Prod.mk.injEq] at hp
    obtain ⟨_, h2, _⟩ := hp
    rw [← h2]
    exact hflag

theorem runDeferred_flag (server : String) (base : FsPath) (url : Option String)
    (cmd : Command) (st : SState) (hflag : st.modsUpToDate = true) :
    (runDeferred server base url cmd st).1.modsUpToDate = true := by
  cases cmd with
  | backup =>
    simp only [runDeferred]
    split
    · simp [update_status_modsUpToDate, hflag]
    · simp [update_status_modsUpToDate, hflag]
  | restore =>
    simp only [runDeferred]
    split
    · simp [update_status_modsUpToDate, hflag]
    · split
      · simp [update_status_modsUpToDate, hflag]
      · simp [update_status_modsUpToDate, hflag]
  | generateModsZip =>
    simp only [runDeferred, hflag, Bool.not_true, Bool.false_eq_true, if_false]
    split <;> simp [update_status_modsUpToDate, hflag]
  | doNothing => simpa [runDeferred] using hflag
  | console c => simpa [runDeferred] using hflag
  | listMods a b => simpa [runDeferred] using hflag
  | installMod a b => simpa [runDeferred] using hflag
  | uninstallMod a => simpa [runDeferred] using hflag
  | updateMod a b => simpa [runDeferred] using hflag
  | queryMod a => simpa [runDeferred] using hflag

theorem iteration_preserves_cache (server : String) (base : FsPath)
    (url : Option String) (cmd : Command) (st : SState) (r : Response)
    (st' : SState) (w : Bool) (hflag : st.modsUpToDate = true)
    (h : runIdleIteration server base url cmd st = some (r, st', w))
    (hr : isModChangeCmd cmd = true → r ≠ .ok) :
    st'.modsUpToDate = true := by
  unfold runIdleIteration at h
  cases hp : process_command_idle server base cmd st with
  | none => rw [hp] at h; exact Option.noConfusion h
  | some t =>
    obtain ⟨resp, st1, d⟩ := t
    rw [hp] at h
    simp only [Option.some.injEq, Prod.mk.injEq] at h
    obtain ⟨hresp, hst', _⟩ := h
    have h1 : st1.modsUpToDate = true :=
      process_flag server base cmd st resp st1 d hflag hp
        (fun hm hc => hr hm (hresp ▸ hc))
    rw [← hst']
    exact runDeferred_flag server base url d st1 h1

theorem runDeferred_genzip_work (server : String) (base : FsPath)
    (url : Option String) (st : SState) :
    (runDeferred server base url .generateModsZip st).2 = true →
    (runDeferred server base url .generateModsZip st).1.modsUpToDate = true := by
  unfold runDeferred
  by_cases hf : st.modsUpToDate
  · simp only [hf, Bool.not_true, Bool.false_eq_true, if_false]
    cases url <;> intro hw <;> simp at hw
  · have hf' : st.modsUpToDate = false := by simpa using hf
    simp only [hf', Bool.not_false, if_true]
    cases hmp : getModsPath (update_status server st .packaging).fs base with
    | none => intro hw; simp at hw
    | some mp =>
      cases url <;> intro _ <;> simp [update_status_modsUpToDate]

theorem genzip_work_flag (server : String) (base : FsPath)
    (url : Option String) (st : SState) (r : Response) (st' : SState)
    (h : runIdleIteration server base url .generateModsZip st
      = some (r, st', true)) :
    st'.modsUpToDate = true := by
  unfold runIdleIteration process_command_idle at h
  simp only [Option.some.injEq, Prod.mk.injEq] at h
  obtain ⟨_, hst', hw⟩ := h
  rw [← hst']
  exact runDeferred_genzip_work server base url st hw

theorem genzip_cached (server : String) (base : FsPath) (url : Option String)
    (st : SState) (hflag : st.modsUpToDate = true) :
    runIdleIteration server base url .generateModsZip st
      = some (.ok, (runDeferred server base url .generateModsZip st).1, false) := by
  have h2 : (runDeferred server base url .generateModsZip st).2 = false := by
    unfold runDeferred
    simp only [hflag, Bool.not_true, Bool.false_eq_true, if_false]
    cases url <;> rfl
  unfold runIdleIteration process_command_idle
  dsimp only
  rw [h2]

theorem trace_preserves_cache (server : String) (base : FsPath)
    (trace : List (Command × Option String)) :
    ∀ st stf : SState, ∀ resps : List Response,
    st.modsUpToDate = true →
    runTrace server base trace st = some (stf, resps) →
    (∀ p ∈ (trace.map Prod.fst).zip resps,
      isModChangeCmd p.1 = true → p.2 ≠ Response.ok) →
    stf.modsUpToDate = true := by
  induction trace with
  | nil =>
    intro st stf resps hflag h _
    simp only [runTrace, Option.some.injEq, Prod.mk.injEq] at h
    rw [← h.1]
    exact hflag
  | cons x rest ih =>
    obtain ⟨cmd, url⟩ := x
    intro st stf resps hflag h hno
    unfold runTrace at h
    cases hit : runIdleIteration server base url cmd st with
    | none => rw [hit] at h; exact Option.noConfusion h
    | some t =>
      obtain ⟨r, st1, w⟩ := t
      rw [hit] at h
      dsimp only at h
      cases hrt : runTrace server base rest st1 with
      | none => rw [hrt] at h; exact Option.noConfusion h
      | some q =>
        obtain ⟨stf2, resps2⟩ := q
        rw [hrt] at h
        simp only [Option.some.injEq, Prod.mk.injEq] at h
        obtain ⟨hstf, hresps⟩ := h
        have hhead : isModChangeCmd cmd = true → r ≠ .ok := by
          intro hm
          refine hno (cmd, r) ?_ hm
          rw [← hresps, List.map_cons, List.zip_cons_cons]
          exact List.mem_cons_self _ _
        have h1 : st1.modsUpToDate = true :=
          iteration_preserves_cache server base url cmd st r st1 w hflag hit
            hhead
        rw [← hstf]
        refine ih st1 stf2 resps2 h1 hrt ?_
        intro p hp hm
        refine hno p ?_ hm
        rw [← hresps, List.map_cons, List.zip_cons_cons]
        exact List.mem_cons_of_mem _ hp

/-- C7 — Packaged-zip cache: if a `GenerateModsZip` completes the
zip-writing step (the pass reports compression work done, which sets
`mods_up_to_date`) and a subsequent sequence of idle-loop passes
contains no successful install, update or uninstall, then the next
`GenerateModsZip` performs no zip-writing work (the cached archive is
reused); conversely, every install, update or uninstall that returns
`Ok` leaves the cache marked stale. -/
theorem zip_cache (server : String) (base : FsPath) (st st1 stf : SState)
    (url1 url2 : Option String) (r1 : Response)
    (trace : List (Command × Option String)) (resps : List Response)
    (h1 : runIdleIteration server base url1 .generateModsZip st
      = some (r1, st1, true))
    (h2 : runTrace server base trace st1 = some (stf, resps))
    (hnomod : ∀ p ∈ (trace.map Prod.fst).zip resps,
      isModChangeCmd p.1 = true → p.2 ≠ Response.ok) :
    ((runIdleIteration server base url2 .generateModsZip stf).map
      (fun q => q.2.2) = some false) ∧
    (∀ st0 : SState, ∀ cmd : Command, ∀ url : Option String, ∀ r : Response,
      ∀ stg : SState, ∀ w : Bool, isModChangeCmd cmd = true →
      runIdleIteration server base url cmd st0 = some (r, stg, w) →
      r = .ok → stg.modsUpToDate = false) := by
  constructor
  · have hst1 : st1.modsUpToDate = true :=
      genzip_work_flag server base url1 st r1 st1 h1
    have hstf : stf.modsUpToDate = true :=
      trace_preserves_cache server base trace st1 stf resps hst1 h2 hnomod
    rw [genzip_cached server base url2 stf hstf]
    rfl
  · intro st0 cmd url r stg w hm hrun hok
    cases cmd with
    | installMod p f =>
      unfold runIdleIteration at hrun
      cases hp : process_command_idle server base (.installMod p f) st0 with
      | none => rw [hp] at hrun; exact Option.noConfusion hrun
      | some t =>
        obtain ⟨resp, sta, d⟩ := t
        rw [hp] at hrun
        dsimp only at hrun
        simp only [Option.some.injEq, Prod.mk.injEq] at hrun
        obtain ⟨hresp, hstg, _⟩ := hrun
        simp only [process_command_idle, Option.map_eq_some'] at hp
        obtain ⟨⟨r0, s0⟩, hi, heq⟩ := hp
        simp only [Prod.mk.injEq] at heq
        obtain ⟨h_r, h_s, h_d⟩ := heq
        have hflag := install_mod_flag server p f (getModsPath st0.fs base)
          st0 r0 s0 hi
        rw [h_r.trans (hresp.trans hok), if_pos rfl] at hflag
        rw [← hstg, ← h_d]
        show sta.modsUpToDate = false
        rw [← h_s]
        exact hflag
    | updateMod p f =>
      unfold runIdleIteration at hrun
      cases hp : process_command_idle server base (.updateMod p f) st0 with
      | none => rw [hp] at hrun; exact Option.noConfusion hrun
      | some t =>
        obtain ⟨resp, sta, d⟩ := t
        rw [hp] at hrun
        dsimp only at hrun
        simp only [Option.some.injEq, Prod.mk.injEq] at hrun
        obtain ⟨hresp, hstg, _⟩ := hrun
        simp only [process_command_idle, Option.map_eq_some'] at hp
        obtain ⟨⟨r0, s0⟩, hi, heq⟩ := hp
        simp only [Prod.mk.injEq] at heq
        obtain ⟨h_r, h_s, h_d⟩ := heq
        have hflag := update_mod_flag server p f (getModsPath st0.fs base)
          st0 r0 s0 hi
        rw [h_r.trans (hresp.trans hok), if_pos rfl] at hflag
        rw [← hstg, ← h_d]
        show sta.modsUpToDate = false
        rw [← h_s]
        exact hflag
    | uninstallMod mid =>
      unfold runIdleIteration at hrun
      cases hp : process_command_idle server base (.uninstallMod mid) st0 with
      | none => rw [hp] at hrun; exact Option.noConfusion hrun
      | some t =>
        obtain ⟨resp, sta, d⟩ := t
        rw [hp] at hrun
        dsimp only at hrun
        simp only [Option.some.injEq, Prod.mk.injEq] at hrun
        obtain ⟨hresp, hstg, _⟩ := hrun
        simp only [process_command_idle, Option.some.injEq, Prod.mk.injEq] at hp
        obtain ⟨h_r, h_s, h_d⟩ := hp
        have hflag := uninstall_mod_flag server mid (getModsPath st0.fs base)
          st0 (uninstall_mod server mid (getModsPath st0.fs base) st0).1
          (uninstall_mod server mid (getModsPath st0.fs base) st0).2 rfl
        rw [h_r.trans (hresp.trans hok), if_pos rfl] at hflag
        rw [← hstg, ← h_d]
        show sta.modsUpToDate = false
        rw [← h_s]
        exact hflag
    | doNothing => simp [isModChangeCmd] at hm
    | console c => simp [isModChangeCmd] at hm
    | backup => simp [isModChangeCmd] at hm
    | restore => simp [isModChangeCmd] at hm
    | listMods a b => simp [isModChangeCmd] at hm
    | queryMod a => simp [isModChangeCmd] at hm
    | generateModsZip => simp [isModChangeCmd] at hm

def c7_state : SState := ⟨[], .idle, [], false, none⟩

def c7_state1 : SState :=
  ⟨[], .idle,
   [.statusChanged "survival" .idle .packaging,
    .statusChanged "survival" .packaging .idle,
    .zipFile "survival" "u"], true, some []⟩

/-- C7 witness: a first `GenerateModsZip` on a fresh supervisor does
the zip work and leaves the cache valid; with no mod change in
between, the second `GenerateModsZip` reports no zip work. -/
theorem zip_cache_witness :
    (runIdleIteration "survival" ["d"] (some "u2") .generateModsZip
      c7_state1).map (fun q => q.2.2) = some false :=
  (zip_cache "survival" ["d"] c7_state c7_state1 c7_state1 (some "u")
    (some "u2") .ok [] [] (by decide) rfl (by decide)).1

end MindCraft
